import Mathlib

/-!
Verification of the multi-provider AI meeting-analysis core of the
AI-Meeting-Summrize repository.

The development shallowly embeds the JavaScript/TypeScript source:

* `JSVal` models the JSON-like values that flow between providers and the
  normalizer; `truthy`, `jsTypeof`, `jsOr`, `getField` model the JavaScript
  semantics the source relies on (`||` defaults, `typeof` checks, property
  access, with property access on `null`/`undefined` throwing).
* `analyzeContent` embeds `AIProviderManager.analyzeContent`
  (src/server/services/aiProviders.ts, lines 301-326); providers are modelled
  by their observable behaviour (`isAvailable` result and `analyze` result),
  since the real adapters do network I/O.
* `groqRecover` embeds the defensive JSON-recovery ladder of
  `GroqProvider.analyze` (same file, lines 130-214); `JSON.parse` and the
  specific regex `match` calls are model parameters since they are runtime
  library services, and the claims hold for every instantiation.
* `localAnalyze` embeds `LocalProvider.analyze` (same file, lines 226-278),
  including a faithful model of JavaScript global-flag regex statefulness
  (`lastIndex`) for the keyword filters.
* `normalizeAnalysis` embeds the normalization section of
  `analyzeMeetingTranscript` (src/unnamed/part_001, lines 23-66), the function
  that consumes `analyzeContent`'s raw result.

Exceptions are modelled with `Except`: a `.error` result is a thrown
JavaScript exception.
-/

namespace MeetingAI

/-- Model of JavaScript/JSON values exchanged between the providers and the
normalizer. `undefined` is the JavaScript value of that name (absent object
fields read as it). Numbers are modelled as integers: every numeric literal in the
modelled code paths is an integer. -/
inductive JSVal where
  | undefined : JSVal
  | null : JSVal
  | bool : Bool → JSVal
  | num : Int → JSVal
  | str : String → JSVal
  | arr : List JSVal → JSVal
  | obj : List (String × JSVal) → JSVal

/-- JavaScript truthiness of a value. -/
def truthy : JSVal → Bool
  | .undefined => false
  | .null => false
  | .bool b => b
  | .num n => n != 0
  | .str s => s != ""
  | .arr _ => true
  | .obj _ => true

/-- JavaScript `typeof`.  Note `typeof null` is `"object"`. -/
def jsTypeof : JSVal → String
  | .undefined => "undefined"
  | .null => "object"
  | .bool _ => "boolean"
  | .num _ => "number"
  | .str _ => "string"
  | .arr _ => "object"
  | .obj _ => "object"

/-- JavaScript `a || b`: the left operand when truthy, otherwise the right. -/
def jsOr (a b : JSVal) : JSVal := if truthy a then a else b

/-- Property read that cannot throw: field lookup on objects, `undefined` on
missing fields and on non-objects.  (Reads on `null`/`undefined` are the
throwing case, handled by `getFieldE`.) -/
def getField (v : JSVal) (k : String) : JSVal :=
  match v with
  | .obj fs =>
    match fs.find? (fun p => p.1 == k) with
    | some p => p.2
    | none => .undefined
  | _ => .undefined

/-- JavaScript property access `v.k`: throws a `TypeError` on `null` and
`undefined`, otherwise yields `getField v k`. -/
def getFieldE (v : JSVal) (k : String) : Except String JSVal :=
  match v with
  | .null => .error ("TypeError: cannot read properties of null (reading " ++ k ++ ")")
  | .undefined => .error ("TypeError: cannot read properties of undefined (reading " ++ k ++ ")")
  | _ => .ok (getField v k)

/-- JavaScript strict equality of a value with a string literal. -/
def jsStrictEqStr (v : JSVal) (s : String) : Bool :=
  match v with
  | .str t => t == s
  | _ => false

/-! ## Provider manager (src/server/services/aiProviders.ts, lines 281-327) -/

/-- A thrown provider error, with the fields `analyzeContent`'s catch block
inspects (`error.status`, `error.code`, `error.message`). -/
structure JSError where
  status : Option Int
  code : Option String
  message : String

/-- A provider, modelled by its observable behaviour: the result of its
`isAvailable()` probe and of `analyze(content)` (which either returns a raw
result value or throws). -/
structure Provider where
  name : String
  isAvailable : Bool
  analyze : String → Except JSError JSVal

/-- JavaScript `String.prototype.includes` for a non-empty needle. -/
def stringIncludes (s sub : String) : Bool := (s.splitOn sub).length > 1

/-- The quota/rate-limit test in `analyzeContent`'s catch block
(`error.status === 429 || error.code === 'insufficient_quota' ||
error.message.includes('quota')`). -/
def isQuotaError (e : JSError) : Bool :=
  e.status == some 429 || e.code == some "insufficient_quota" ||
    stringIncludes e.message "quota"

/-- Embedding of `AIProviderManager.analyzeContent` (lines 301-326): walk the
provider list in order; skip unavailable providers; return the first
successful `analyze` result; on any thrown error continue to the next
provider (the catch block distinguishes quota errors only in its logging —
both branches `continue`); if the loop finishes, throw the terminal error. -/
def analyzeContent : List Provider → String → Except String JSVal
  | [], _ => .error "All AI providers failed or are unavailable"
  | p :: ps, content =>
    if p.isAvailable then
      match p.analyze content with
      | .ok result => .ok result
      | .error e =>
        if isQuotaError e then analyzeContent ps content
        else analyzeContent ps content
    else analyzeContent ps content

/-- Instrumented variant of `analyzeContent` that additionally records, in
order, the names of the providers whose `analyze` was invoked. -/
def analyzeContentTrace : List Provider → String → List String × Except String JSVal
  | [], _ => ([], .error "All AI providers failed or are unavailable")
  | p :: ps, content =>
    if p.isAvailable then
      match p.analyze content with
      | .ok result => ([p.name], .ok result)
      | .error e =>
        let rest :=
          if isQuotaError e then analyzeContentTrace ps content
          else analyzeContentTrace ps content
        (p.name :: rest.1, rest.2)
    else analyzeContentTrace ps content

theorem analyzeContentTrace_snd (ps : List Provider) (c : String) :
    (analyzeContentTrace ps c).2 = analyzeContent ps c := by
  induction ps with
  | nil => rfl
  | cons p ps ih =>
    simp only [analyzeContentTrace, analyzeContent]
    by_cases h : p.isAvailable
    · rw [if_pos h, if_pos h]
      cases hr : p.analyze c with
      | ok r => simp
      | error e => simp [ite_self, ih]
    · rw [if_neg h, if_neg h]; exact ih

theorem analyzeContent_error_iff (ps : List Provider) (c : String) :
    analyzeContent ps c = .error "All AI providers failed or are unavailable" ↔
      ∀ p ∈ ps, p.isAvailable = true → ∃ e, p.analyze c = .error e := by
  induction ps with
  | nil => simp [analyzeContent]
  | cons p ps ih =>
    simp only [analyzeContent]
    by_cases h : p.isAvailable
    · rw [if_pos h]
      cases hr : p.analyze c with
      | ok r =>
        constructor
        · intro hfalse; exact absurd hfalse (by simp)
        · intro hall
          obtain ⟨e, he⟩ := hall p (by simp) h
          rw [hr] at he; exact absurd he (by simp)
      | error e =>
        simp only [ite_self, ih]
        constructor
        · intro hall q hmem hav
          rcases List.mem_cons.mp hmem with rfl | hmem'
          · exact ⟨e, hr⟩
          · exact hall q hmem' hav
        · intro hall q hmem hav; exact hall q (List.mem_cons_of_mem _ hmem) hav
    · rw [if_neg h, ih]
      constructor
      · intro hall q hmem hav
        rcases List.mem_cons.mp hmem with rfl | hmem'
        · exact absurd hav h
        · exact hall q hmem' hav
      · intro hall q hmem hav; exact hall q (List.mem_cons_of_mem _ hmem) hav

theorem analyzeContent_first_ok (ps₁ : List Provider) (p : Provider)
    (ps₂ : List Provider) (c : String)
    (hfail : ∀ q ∈ ps₁, q.isAvailable = true → ∃ e, q.analyze c = .error e)
    (hav : p.isAvailable = true) (r : JSVal) (hr : p.analyze c = .ok r) :
    analyzeContent (ps₁ ++ p :: ps₂) c = .ok r := by
  induction ps₁ with
  | nil => simp [analyzeContent, hav, hr]
  | cons q ps₁ ih =>
    simp only [List.cons_append, analyzeContent]
    have ih' := ih (fun q' hmem hav' => hfail q' (List.mem_cons_of_mem _ hmem) hav')
    by_cases hq : q.isAvailable
    · obtain ⟨e, he⟩ := hfail q (by simp) hq
      rw [if_pos hq, he]
      simp only [ite_self]
      exact ih'
    · rw [if_neg hq]; exact ih'

theorem analyzeContent_error_unique (ps : List Provider) (c : String)
    (msg : String) (h : analyzeContent ps c = .error msg) :
    msg = "All AI providers failed or are unavailable" := by
  induction ps with
  | nil => simpa [analyzeContent] using h.symm
  | cons p ps ih =>
    simp only [analyzeContent] at h
    by_cases hp : p.isAvailable
    · rw [if_pos hp] at h
      cases hr : p.analyze c with
      | ok r => rw [hr] at h; exact absurd h (by simp)
      | error e => rw [hr] at h; simp only [ite_self] at h; exact ih h
    · rw [if_neg hp] at h; exact ih h

/-- The trace only ever names providers from the list, in order. -/
theorem analyzeContentTrace_sublist (ps : List Provider) (c : String) :
    (analyzeContentTrace ps c).1.Sublist (ps.map Provider.name) := by
  induction ps with
  | nil => simp [analyzeContentTrace]
  | cons p ps ih =>
    simp only [analyzeContentTrace, List.map_cons]
    by_cases h : p.isAvailable
    · rw [if_pos h]
      cases hr : p.analyze c with
      | ok r => simp
      | error e =>
        simp only [ite_self]
        exact List.Sublist.cons₂ _ ih
    · rw [if_neg h]
      exact List.Sublist.cons _ ih

/-! ## Groq defensive JSON-recovery ladder
(src/server/services/aiProviders.ts, lines 130-214)

`JSON.parse` is modelled by a parameter `jsonParse : String → Option JSVal`
(`none` = the parse throws), and the four `responseContent.match(...)` regex
extractions by parameters returning the first capture group (`none` = no
match).  The claims proved below hold for every instantiation of these
parameters. -/

/-- JavaScript `split` on a single-character separator: split at every
occurrence, keeping empty pieces (`"".split(c)` is `[""]`). -/
def jsSplitOnChar (sep : Char) : List Char → List (List Char)
  | [] => [[]]
  | c :: cs =>
    if c = sep then [] :: jsSplitOnChar sep cs
    else
      match jsSplitOnChar sep cs with
      | t :: ts => (c :: t) :: ts
      | [] => [[c]]

/-- JavaScript `trim()`: strip whitespace from both ends. -/
def jsTrim (l : List Char) : List Char :=
  ((l.dropWhile Char.isWhitespace).reverse.dropWhile Char.isWhitespace).reverse

/-- JavaScript `indexOf` for a character (`-1` when absent). -/
def jsIndexOf (c : Char) (l : List Char) : Int :=
  match l.findIdx? (· == c) with
  | some i => Int.ofNat i
  | none => -1

/-- JavaScript `lastIndexOf` for a character (`-1` when absent). -/
def jsLastIndexOf (c : Char) (l : List Char) : Int :=
  match l.reverse.findIdx? (· == c) with
  | some i => Int.ofNat (l.length - 1 - i)
  | none => -1

/-- One pass of `replace(/,\s*CLOSE/g, 'CLOSE')`: every comma followed by
whitespace and `close` collapses to `close`; scanning resumes after the
replacement. Fuel-based for structural recursion; `stripTrailingCommas`
supplies enough fuel. -/
def stripTrailingCommasF (close : Char) : Nat → List Char → List Char
  | 0, l => l
  | _ + 1, [] => []
  | fuel + 1, c :: cs =>
    if c = ',' then
      match cs.dropWhile (fun d => d.isWhitespace) with
      | d :: ds =>
        if d = close then close :: stripTrailingCommasF close fuel ds
        else c :: stripTrailingCommasF close fuel cs
      | [] => c :: stripTrailingCommasF close fuel cs
    else c :: stripTrailingCommasF close fuel cs

def stripTrailingCommas (close : Char) (l : List Char) : List Char :=
  stripTrailingCommasF close (l.length + 1) l

/-- Stage-1 cleanup of `GroqProvider.analyze` (lines 137-155): trim, cut to
the first `{` (only when its index is positive, as in the source's
`firstBrace > 0`), cut after the last `}` (again only when `lastBrace > 0`),
then strip trailing commas before `}` and before `]`. -/
def cleanGroqContent (responseContent : String) : String :=
  let l1 := jsTrim responseContent.toList
  let firstBrace := jsIndexOf '{' l1
  let l2 := if firstBrace > 0 then l1.drop firstBrace.toNat else l1
  let lastBrace := jsLastIndexOf '}' l2
  let l3 := if lastBrace > 0 then l2.take (lastBrace.toNat + 1) else l2
  String.mk (stripTrailingCommas ']' (stripTrailingCommas '}' l3))

/-- The list post-processing of the manual extraction (lines 169-184):
`inner.split(',').map(s => s.replace(/"/g, '').trim()).filter(s => s)`. -/
def parseListInner (inner : String) : List String :=
  ((jsSplitOnChar ',' inner.toList).map
      (fun s => String.mk (jsTrim (s.filter (fun c => c != '"'))))).filter
    (fun s => s != "")

/-- Stage 2 of the recovery ladder (lines 162-197): field-by-field regex
extraction.  Each argument is the first capture group of the corresponding
`responseContent.match(...)` call (`none` = no match).  The remaining fields
of the returned object are hardcoded constants in the source. -/
def manualExtract (summaryM keyPointsM decisionsM actionItemsM : Option String) : JSVal :=
  let summary := match summaryM with
    | some s => s
    | none => "Meeting analysis completed"
  let keyPoints := match keyPointsM with
    | some inner => parseListInner inner
    | none => ["Analysis completed with available data"]
  let decisions := match decisionsM with
    | some inner => parseListInner inner
    | none => []
  let actionItems := match actionItemsM with
    | some inner => parseListInner inner
    | none => []
  .obj [("summary", .str summary),
        ("keyPoints", .arr (keyPoints.map JSVal.str)),
        ("decisions", .arr (decisions.map JSVal.str)),
        ("nextSteps", .arr (decisions.map JSVal.str)),
        ("actionItems", .arr (actionItems.map JSVal.str)),
        ("sentimentAnalysis", .obj [("overall", .num 75), ("positive", .num 5), ("negative", .num 1)]),
        ("speakerAnalysis", .str "Analysis completed with manual parsing"),
        ("duration", .num 30),
        ("participantCount", .num 4),
        ("overallSentiment", .str "positive")]

/-- Stage 3 of the recovery ladder: the catch-arm object of lines 199-212,
returned if the manual extraction itself were to throw. -/
def groqFallback : JSVal :=
  .obj [("summary", .str "Meeting analysis completed - JSON parsing failed"),
        ("keyPoints", .arr [.str "Analysis data available but parsing failed"]),
        ("decisions", .arr []),
        ("nextSteps", .arr []),
        ("actionItems", .arr []),
        ("sentimentAnalysis", .obj [("overall", .num 50)]),
        ("speakerAnalysis", .str "Analysis completed with Groq"),
        ("duration", .num 30),
        ("participantCount", .num 2),
        ("overallSentiment", .str "neutral")]

/-- The try-block around the manual extraction.  None of its operations
(`match`, `split`, `map`, `replace`, `trim`, `filter`) can throw in
JavaScript, so in the model it always succeeds; the catch arm in
`groqRecover` keeps the source's final fallback reachable in the code
shape. -/
def manualExtractE (mS mK mD mA : String → Option String) (responseContent : String) :
    Except String JSVal :=
  .ok (manualExtract (mS responseContent) (mK responseContent) (mD responseContent)
    (mA responseContent))

/-- The full parse-and-recover ladder of `GroqProvider.analyze`
(lines 130-214): direct `JSON.parse`; on failure cleanup and re-parse; on
failure manual regex extraction; if that threw, the hardcoded neutral
fallback. -/
def groqRecover (jsonParse : String → Option JSVal) (mS mK mD mA : String → Option String)
    (responseContent : String) : JSVal :=
  match jsonParse responseContent with
  | some v => v
  | none =>
    let cleanedContent := cleanGroqContent responseContent
    match jsonParse cleanedContent with
    | some v => v
    | none =>
      match manualExtractE mS mK mD mA responseContent with
      | .ok v => v
      | .error _ => groqFallback

/-! ## Local heuristic analyzer
(src/server/services/aiProviders.ts, lines 219-279)

The three regexes carry the `g` (global) flag, so their `lastIndex` persists
across successive `.test` calls inside `filter` — the model threads it
faithfully. -/

/-- JavaScript `split` on a character-class-plus regex (such as `/\s+/` or
`/[.!?]+/`): pieces between maximal runs of separator characters, keeping the
empty piece that JavaScript produces before a leading run and after a
trailing run (`""` splits to `[""]`). -/
def splitRunsBy (p : Char → Bool) : List Char → List (List Char)
  | [] => [[]]
  | c :: cs =>
    if p c then
      match cs with
      | c2 :: _ => if p c2 then splitRunsBy p cs else [] :: splitRunsBy p cs
      | [] => [[], []]
    else
      match splitRunsBy p cs with
      | t :: ts => (c :: t) :: ts
      | [] => [[c]]

/-- Embedding of `content.split(/\s+/).length`. -/
def jsWordCount (content : String) : Nat :=
  (splitRunsBy Char.isWhitespace content.toList).length

/-- Embedding of `content.split(/[.!?]+/).length`. -/
def jsSentenceCount (content : String) : Nat :=
  (splitRunsBy (fun c => c == '.' || c == '!' || c == '?') content.toList).length

/-- Modelled from the spec's words, for comparison with `jsWordCount`:
"Word count = whitespace-split token count of the transcript" — the number of
(nonempty) tokens obtained when splitting on whitespace. -/
def specWordCount (s : String) : Nat :=
  ((splitRunsBy Char.isWhitespace s.toList).filter (fun t => !t.isEmpty)).length

/-- One alternative of a keyword regex: a plain word, or two literals joined
by `.?` (an optional single non-line-terminator character), as in
`follow.?up`. -/
inductive RAlt where
  | lit : String → RAlt
  | optMid : String → String → RAlt

/-- JavaScript `\w` (regex word character). -/
def isWordChar (c : Char) : Bool := c.isAlphanum || c == '_'

/-- Case-insensitive literal match at the head of `rest`; the pattern is
given lowercase.  Returns the remaining suffix. -/
def litAt : List Char → List Char → Option (List Char)
  | [], rest => some rest
  | _ :: _, [] => none
  | p :: ps, c :: cs => if c.toLower == p then litAt ps cs else none

/-- The trailing `\b` of the keyword regexes: every alternative ends in a
word character, so the boundary holds iff the next character is absent or a
non-word character. -/
def endBoundary : List Char → Bool
  | [] => true
  | c :: _ => !isWordChar c

/-- Match one alternative at the head of `rest`, including the trailing `\b`;
returns the matched length.  `.?` is greedy: one character (not a line
terminator) is tried first, the empty match on backtrack. -/
def matchAltAt (alt : RAlt) (rest : List Char) : Option Nat :=
  match alt with
  | .lit p =>
    match litAt p.toList rest with
    | some rem => if endBoundary rem then some p.length else none
    | none => none
  | .optMid pre post =>
    match litAt pre.toList rest with
    | some rem1 =>
      let withChar : Option Nat :=
        match rem1 with
        | c :: cs =>
          if c != '\n' && c != '\r' then
            match litAt post.toList cs with
            | some rem2 => if endBoundary rem2 then some (pre.length + 1 + post.length) else none
            | none => none
          else none
        | [] => none
      match withChar with
      | some n => some n
      | none =>
        match litAt post.toList rem1 with
        | some rem2 => if endBoundary rem2 then some (pre.length + post.length) else none
        | none => none
    | none => none

/-- Alternation: first alternative (in pattern order) that matches. -/
def tryAltsAt (alts : List RAlt) (rest : List Char) : Option Nat :=
  match alts with
  | [] => none
  | a :: rs =>
    match matchAltAt a rest with
    | some n => some n
    | none => tryAltsAt rs rest

/-- Scan for the first match at position ≥ `i`; `prevWord` is the word-ness
of the character before position `i`, giving the leading `\b` (every
alternative starts with a word character, so the boundary holds iff the
previous character is absent or non-word).  Returns (start, end). -/
def findFrom (alts : List RAlt) : Bool → Nat → List Char → Option (Nat × Nat)
  | _, _, [] => none
  | prevWord, i, c :: cs =>
    if !prevWord then
      match tryAltsAt alts (c :: cs) with
      | some len => some (i, i + len)
      | none => findFrom alts (isWordChar c) (i + 1) cs
    else findFrom alts (isWordChar c) (i + 1) cs

def prevWordAt (s : List Char) (i : Nat) : Bool :=
  if i = 0 then false
  else
    match s.get? (i - 1) with
    | some c => isWordChar c
    | none => false

/-- `regex.test(s)` for a `g`-flag regex with state `lastIndex`: search from
`lastIndex`; on a match return `true` and set `lastIndex` to the match end;
otherwise return `false` and reset `lastIndex` to 0. -/
def regexTestG (alts : List RAlt) (s : List Char) (lastIndex : Nat) : Bool × Nat :=
  if lastIndex > s.length then (false, 0)
  else
    match findFrom alts (prevWordAt s lastIndex) lastIndex (s.drop lastIndex) with
    | some se => (true, se.2)
    | none => (false, 0)

/-- `lines.filter(line => regex.test(line))` with a single `g`-flag regex
object: `lastIndex` carries over from one `.test` call to the next. -/
def filterTestLines (alts : List RAlt) : Nat → List (List Char) → List (List Char)
  | _, [] => []
  | lastIndex, l :: ls =>
    let r := regexTestG alts l lastIndex
    if r.1 then l :: filterTestLines alts r.2 ls else filterTestLines alts r.2 ls

/-- Number of matches of `content.match(regex)` for a `g`-flag regex
(`(content.match(...) || []).length`).  Fuel-based: every match is nonempty,
so `length + 1` iterations suffice. -/
def countMatchesFrom (alts : List RAlt) (s : List Char) : Nat → Nat → Nat
  | 0, _ => 0
  | fuel + 1, i =>
    if i > s.length then 0
    else
      match findFrom alts (prevWordAt s i) i (s.drop i) with
      | some se => 1 + countMatchesFrom alts s fuel se.2
      | none => 0

def countMatches (alts : List RAlt) (content : String) : Nat :=
  countMatchesFrom alts content.toList (content.length + 1) 0

/-- `/\b(action|todo|follow.?up|next.?step|assign|task|deadline|due)\b/gi` -/
def actionKeywords : List RAlt :=
  [.lit "action", .lit "todo", .optMid "follow" "up", .optMid "next" "step",
   .lit "assign", .lit "task", .lit "deadline", .lit "due"]

/-- `/\b(decide|decided|agreed|resolved|conclusion|final)\b/gi` -/
def decisionKeywords : List RAlt :=
  [.lit "decide", .lit "decided", .lit "agreed", .lit "resolved",
   .lit "conclusion", .lit "final"]

/-- `/\b(good|great|excellent|success|agree|positive|happy|satisfied)\b/gi` -/
def positiveWords : List RAlt :=
  [.lit "good", .lit "great", .lit "excellent", .lit "success",
   .lit "agree", .lit "positive", .lit "happy", .lit "satisfied"]

/-- `/\b(bad|terrible|problem|issue|concern|negative|unhappy|dissatisfied)\b/gi` -/
def negativeWords : List RAlt :=
  [.lit "bad", .lit "terrible", .lit "problem", .lit "issue",
   .lit "concern", .lit "negative", .lit "unhappy", .lit "dissatisfied"]

/-- `LocalProvider.analyze` action items (lines 232-237): filter the lines
through the stateful global regex, cap at 5, trim. -/
def localActionItems (content : String) : List String :=
  ((filterTestLines actionKeywords 0 (jsSplitOnChar '\n' content.toList)).take 5).map
    (fun l => String.mk (jsTrim l))

/-- `LocalProvider.analyze` decisions (lines 239-244). -/
def localDecisions (content : String) : List String :=
  ((filterTestLines decisionKeywords 0 (jsSplitOnChar '\n' content.toList)).take 5).map
    (fun l => String.mk (jsTrim l))

/-- Embedding of `LocalProvider.analyze` (lines 226-278). -/
def localAnalyze (content : String) : JSVal :=
  let words := jsWordCount content
  let sentences := jsSentenceCount content
  let estimatedDuration := (words + 149) / 150
  let actionItems := localActionItems content
  let decisions := localDecisions content
  let positiveCount := countMatches positiveWords content
  let negativeCount := countMatches negativeWords content
  let overallSentiment :=
    if positiveCount > negativeCount + 2 then "positive"
    else if negativeCount > positiveCount + 2 then "negative"
    else "neutral"
  .obj [("summary", .str ("Meeting transcript analyzed locally. Contains approximately "
          ++ toString words ++ " words and " ++ toString sentences
          ++ " sentences. Estimated duration: " ++ toString estimatedDuration ++ " minutes.")),
        ("keyPoints", .arr [.str ("Word count: " ++ toString words),
                            .str ("Estimated speaking time: " ++ toString estimatedDuration
                              ++ " minutes"),
                            .str ("Sentence count: " ++ toString sentences),
                            .str "Local analysis - upgrade to AI provider for detailed insights"]),
        ("decisions", .arr (if decisions.length > 0 then decisions.map JSVal.str
          else [.str "No clear decisions detected in local analysis"])),
        ("nextSteps", .arr (if actionItems.length > 0 then actionItems.map JSVal.str
          else [.str "No clear action items detected in local analysis"])),
        ("actionItems", .arr (actionItems.map JSVal.str)),
        ("sentimentAnalysis", .obj [("positive", .num (Int.ofNat positiveCount)),
                                    ("negative", .num (Int.ofNat negativeCount)),
                                    ("overall", .str overallSentiment)]),
        ("speakerAnalysis", .str "Speaker analysis requires AI provider"),
        ("duration", .num (Int.ofNat estimatedDuration)),
        ("participantCount", .num (max 1 (Int.ofNat ((words + 499) / 500)))),
        ("overallSentiment", .str overallSentiment)]

/-! ## Result normalizer
(`analyzeMeetingTranscript`, src/unnamed/part_001, lines 23-66)

`normalizeAnalysis` takes the raw value the provider manager returned and
builds the fixed `MeetingAnalysis` shape.  Field types follow what the code
can actually produce: positions the code fills with arbitrary provider
values are `JSVal`. -/

/-- Normalized action item (part_001 lines 24-32). -/
structure ActionItem where
  id : String
  task : JSVal
  assignee : JSVal
  priority : JSVal
  deadline : JSVal
  context : JSVal
  status : String

/-- Normalized sentiment analysis (part_001 lines 35-42). -/
structure SentimentAnalysis where
  overall : JSVal
  timeline : JSVal
  topicBreakdown : JSVal

/-- One normalized speaker (part_001 lines 46-51). -/
structure Speaker where
  name : JSVal
  initials : JSVal
  speakingTime : JSVal
  contribution : JSVal

/-- Normalized speaker analysis (part_001 lines 45-53). -/
structure SpeakerAnalysis where
  speakers : List Speaker
  insights : JSVal

/-- The fixed output record (part_001 lines 55-66). -/
structure MeetingAnalysis where
  summary : JSVal
  keyPoints : List JSVal
  decisions : List JSVal
  nextSteps : List JSVal
  actionItems : List ActionItem
  sentimentAnalysis : SentimentAnalysis
  speakerAnalysis : SpeakerAnalysis
  duration : JSVal
  participantCount : JSVal
  overallSentiment : JSVal

/-- `(x || []).map(f)`: the `.map` call throws a `TypeError` unless the value
is an array. -/
def jsArrayElems : JSVal → Except String (List JSVal)
  | .arr xs => .ok xs
  | _ => .error "TypeError: map is not a function"

/-- `Array.isArray(v) ? v : []`. -/
def jsArrayOrEmpty : JSVal → List JSVal
  | .arr xs => xs
  | _ => []

/-- `.map` with exceptions: left to right, the first thrown error
propagates. -/
def mapME (f : JSVal → Except String α) : List JSVal → Except String (List α)
  | [] => .ok []
  | a :: as' => do
    let b ← f a
    let bs ← mapME f as'
    pure (b :: bs)

/-- `.map((item, index) => ...)` with exceptions, threading the index. -/
def mapIdxME (f : Nat → JSVal → Except String α) : Nat → List JSVal → Except String (List α)
  | _, [] => .ok []
  | i, a :: as' => do
    let b ← f i a
    let bs ← mapIdxME f (i + 1) as'
    pure (b :: bs)

/-- `typeof item === 'string' ? item : (item.task || item)`. -/
def taskField (item : JSVal) : Except String JSVal :=
  if jsTypeof item == "string" then pure item
  else do
    let t ← getFieldE item "task"
    pure (jsOr t item)

/-- `typeof item === 'object' ? (item.KEY || DEFLT) : DEFLT`, the shape of the
`assignee`/`priority`/`deadline`/`context` fields. -/
def condFieldDefault (item : JSVal) (key : String) (deflt : JSVal) : Except String JSVal :=
  if jsTypeof item == "object" then do
    let v ← getFieldE item key
    pure (jsOr v deflt)
  else pure deflt

/-- The action-item callback of part_001 lines 24-32.  Every field guards
with `typeof`; property reads on `null`/`undefined` items throw. -/
def mkActionItem (index : Nat) (item : JSVal) : Except String ActionItem := do
  let task ← taskField item
  let assignee ← condFieldDefault item "assignee" (.str "Unassigned")
  let priority ← condFieldDefault item "priority" (.str "medium")
  let deadline ← condFieldDefault item "deadline" JSVal.null
  let context ← condFieldDefault item "context" (.str "")
  pure { id := "action-" ++ toString (index + 1), task := task, assignee := assignee,
         priority := priority, deadline := deadline, context := context, status := "pending" }

/-- part_001 lines 24-32: `(analysis.actionItems || []).map((item, index) => ...)`. -/
def normalizeActionItems (analysis : JSVal) : Except String (List ActionItem) := do
  let f ← getFieldE analysis "actionItems"
  let xs ← jsArrayElems (jsOr f (.arr []))
  mapIdxME mkActionItem 0 xs

/-- part_001 lines 35-42.  The condition
`typeof analysis.sentimentAnalysis === 'object' && analysis.sentimentAnalysis.overall`
reads `.overall` (and hence throws) when the field is `null`, because
`typeof null === 'object'`; a truthy `.overall` passes through unclamped. -/
def overallFromLabel (analysis : JSVal) : Except String JSVal := do
  let os ← getFieldE analysis "overallSentiment"
  pure (if jsStrictEqStr os "positive" then JSVal.num 78
        else if jsStrictEqStr os "negative" then JSVal.num 25
        else JSVal.num 50)

def normalizeSentiment (analysis : JSVal) : Except String SentimentAnalysis := do
  let sA ← getFieldE analysis "sentimentAnalysis"
  let cond ← if jsTypeof sA == "object" then getFieldE sA "overall"
             else pure (JSVal.bool false)
  let overall ← if truthy cond then pure cond else overallFromLabel analysis
  let tl ← getFieldE analysis "sentimentTimeline"
  let tb ← getFieldE analysis "topicSentiment"
  pure { overall := overall, timeline := jsOr tl (.arr []), topicBreakdown := jsOr tb (.arr []) }

/-- `speaker.name?.split(' ').map(n => n[0]).join('')`: first character of
each space-separated piece (`""[0]` is `undefined`, which `join` renders as
the empty string). -/
def jsInitialsOf (s : String) : String :=
  String.join ((s.splitOn " ").map (fun w =>
    match w.toList with
    | [] => ""
    | ch :: _ => String.singleton ch))

/-- The speaker callback of part_001 lines 46-51.  In
`speaker.initials || speaker.name?.split(' ')... || "??"` the middle operand
is evaluated only when `initials` is falsy, and `.split` throws unless
`speaker.name` is a string (or nullish, which the `?.` chain absorbs). -/
def initialsFromName (speaker : JSVal) : Except String JSVal := do
  let nv2 ← getFieldE speaker "name"
  match nv2 with
  | .null => pure (jsOr .undefined (.str "??"))
  | .undefined => pure (jsOr .undefined (.str "??"))
  | .str s => pure (jsOr (.str (jsInitialsOf s)) (.str "??"))
  | _ => .error "TypeError: split is not a function"

def mkSpeaker (speaker : JSVal) : Except String Speaker := do
  let nv ← getFieldE speaker "name"
  let iv ← getFieldE speaker "initials"
  let initials ← if truthy iv then pure iv else initialsFromName speaker
  let st ← getFieldE speaker "speakingTime"
  let cv ← getFieldE speaker "contribution"
  pure { name := jsOr nv (.str "Unknown Speaker"), initials := initials,
         speakingTime := jsOr st (.num 0), contribution := jsOr cv (.str "") }

/-- part_001 lines 45-53: `(analysis.speakers || []).map(...)` plus the
insights default chain. -/
def normalizeSpeakers (analysis : JSVal) : Except String SpeakerAnalysis := do
  let sp ← getFieldE analysis "speakers"
  let xs ← jsArrayElems (jsOr sp (.arr []))
  let speakers ← mapME mkSpeaker xs
  let i1 ← getFieldE analysis "speakerInsights"
  let i2 ← getFieldE analysis "speakerAnalysis"
  pure { speakers := speakers,
         insights := jsOr (jsOr i1 i2) (.str "Analysis completed with available provider.") }

/-- Embedding of the normalization section of `analyzeMeetingTranscript`
(part_001 lines 23-66), applied to the raw value `analysis` that
`aiManager.analyzeContent` returned. -/
def normalizeAnalysis (analysis : JSVal) : Except String MeetingAnalysis := do
  let actionItems ← normalizeActionItems analysis
  let sentimentAnalysis ← normalizeSentiment analysis
  let speakerAnalysis ← normalizeSpeakers analysis
  let sv ← getFieldE analysis "summary"
  let kp ← getFieldE analysis "keyPoints"
  let dv ← getFieldE analysis "decisions"
  let nv ← getFieldE analysis "nextSteps"
  let du ← getFieldE analysis "duration"
  let pc ← getFieldE analysis "participantCount"
  let ov ← getFieldE analysis "overallSentiment"
  pure { summary := jsOr sv (.str "Meeting analysis completed."),
         keyPoints := jsArrayOrEmpty kp,
         decisions := jsArrayOrEmpty dv,
         nextSteps := jsArrayOrEmpty nv,
         actionItems := actionItems,
         sentimentAnalysis := sentimentAnalysis,
         speakerAnalysis := speakerAnalysis,
         duration := jsOr du (.num 45),
         participantCount := jsOr pc (.num (max 1 (Int.ofNat speakerAnalysis.speakers.length))),
         overallSentiment := jsOr ov (.str "neutral") }

/-! ### Well-formedness: the conditions under which normalization cannot
throw.  Every raw result violating them hits one of the `TypeError` paths
above. -/

def notNullish : JSVal → Bool
  | .null => false
  | .undefined => false
  | _ => true

def notNull : JSVal → Bool
  | .null => false
  | _ => true

/-- An action item the callback can process: anything but `null`/`undefined`
(strings, numbers, booleans, arrays and objects are all fine). -/
def goodActionItem (item : JSVal) : Bool := notNullish item

/-- A speaker the callback can process: not nullish, and either a truthy
`initials` (so the name chain is skipped) or a `name` that is nullish or a
string. -/
def goodSpeaker (s : JSVal) : Bool :=
  notNullish s &&
    (truthy (getField s "initials") ||
      (match getField s "name" with
       | .null => true
       | .undefined => true
       | .str _ => true
       | _ => false))

/-- A field that will be mapped over after `|| []`: either falsy (the
default `[]` kicks in) or an array of processable elements. -/
def mappableField (v : JSVal) (good : JSVal → Bool) : Bool :=
  match jsOr v (.arr []) with
  | .arr xs => xs.all good
  | _ => false

/-- Raw provider results on which `normalizeAnalysis` cannot throw. -/
def wellFormedResult (a : JSVal) : Bool :=
  notNullish a &&
    mappableField (getField a "actionItems") goodActionItem &&
    notNull (getField a "sentimentAnalysis") &&
    mappableField (getField a "speakers") goodSpeaker

/-! ### Injectivity of the decimal rendering used by the action-item ids -/

theorem toDigitsCore_eq_digits (fuel : Nat) : ∀ (n : Nat) (ds : List Char), n < fuel →
    Nat.toDigitsCore 10 fuel n ds =
      (if n = 0 then ['0'] else ((Nat.digits 10 n).map Nat.digitChar).reverse) ++ ds := by
  induction fuel with
  | zero => intro n ds h; omega
  | succ fuel ih =>
    intro n ds h
    simp only [Nat.toDigitsCore]
    by_cases h0 : n / 10 = 0
    · rw [if_pos h0]
      by_cases hn : n = 0
      · subst hn; simp [Nat.digitChar]
      · have h10 : n < 10 := by
          rcases Nat.lt_or_ge n 10 with h' | h'
          · exact h'
          · exact absurd h0 (by have := @Nat.div_le_div_right 10 n 10 h'; omega)
        rw [if_neg hn, Nat.digits_def' (by norm_num : (1:Nat) < 10) (Nat.pos_of_ne_zero hn),
          h0, Nat.digits_zero, Nat.mod_eq_of_lt h10]
        simp
    · rw [if_neg h0]
      have hlt : n / 10 < fuel := by
        have : n / 10 < n := Nat.div_lt_self (by omega) (by norm_num)
        omega
      have hn0 : ¬ n = 0 := fun hh => h0 (by simp [hh])
      rw [ih (n / 10) _ hlt, if_neg h0, if_neg hn0,
        Nat.digits_def' (by norm_num : (1:Nat) < 10) (Nat.pos_of_ne_zero hn0)]
      simp [List.append_assoc]

theorem natRepr_eq_digits (n : Nat) :
    Nat.repr n =
      String.mk (if n = 0 then ['0'] else ((Nat.digits 10 n).map Nat.digitChar).reverse) := by
  show (Nat.toDigits 10 n).asString = _
  rw [Nat.toDigits, toDigitsCore_eq_digits (n + 1) n [] (by omega), List.append_nil]
  rfl

theorem digitChar_inj_lt : ∀ a < 10, ∀ b < 10, Nat.digitChar a = Nat.digitChar b → a = b := by
  decide

theorem map_digitChar_inj : ∀ l1 l2 : List Nat, (∀ x ∈ l1, x < 10) → (∀ x ∈ l2, x < 10) →
    l1.map Nat.digitChar = l2.map Nat.digitChar → l1 = l2 := by
  intro l1
  induction l1 with
  | nil => intro l2 _ _ h; cases l2 <;> simp_all
  | cons a l1 ih =>
    intro l2 h1 h2 h
    cases l2 with
    | nil => simp_all
    | cons b l2 =>
      simp only [List.map_cons, List.cons.injEq] at h
      have hab : a = b :=
        digitChar_inj_lt a (h1 a (by simp)) b (h2 b (by simp)) h.1
      have : l1 = l2 := ih l2 (fun x hx => h1 x (by simp [hx])) (fun x hx => h2 x (by simp [hx])) h.2
      simp [hab, this]

theorem stringMk_inj {l1 l2 : List Char} (h : String.mk l1 = String.mk l2) : l1 = l2 := by
  injection h

theorem natRepr_injective : Function.Injective Nat.repr := by
  intro m n h
  rw [natRepr_eq_digits, natRepr_eq_digits] at h
  have h' := stringMk_inj h
  by_cases hm : m = 0 <;> by_cases hn : n = 0
  · simp [hm, hn]
  · rw [if_pos hm, if_neg hn] at h'
    exfalso
    have hmap : (Nat.digits 10 n).map Nat.digitChar = ['0'] := by
      have := congrArg List.reverse h'
      simpa using this.symm
    have hd : Nat.digits 10 n = [0] := by
      cases hd : Nat.digits 10 n with
      | nil => simp [hd] at hmap
      | cons d ds =>
        rw [hd] at hmap
        cases ds with
        | nil =>
          simp only [List.map_cons, List.map_nil, List.cons.injEq, and_true] at hmap
          have : d < 10 := @Nat.digits_lt_base 10 n d (by norm_num) (by simp [hd])
          have : d = 0 := digitChar_inj_lt d this 0 (by norm_num) (by rw [hmap]; rfl)
          simp [this]
        | cons d2 ds2 => simp at hmap
    have := Nat.getLast_digit_ne_zero 10 hn
    simp [hd] at this
  · rw [if_neg hm, if_pos hn] at h'
    exfalso
    have hmap : (Nat.digits 10 m).map Nat.digitChar = ['0'] := by
      have := congrArg List.reverse h'
      simpa using this
    have hd : Nat.digits 10 m = [0] := by
      cases hd : Nat.digits 10 m with
      | nil => simp [hd] at hmap
      | cons d ds =>
        rw [hd] at hmap
        cases ds with
        | nil =>
          simp only [List.map_cons, List.map_nil, List.cons.injEq, and_true] at hmap
          have : d < 10 := @Nat.digits_lt_base 10 m d (by norm_num) (by simp [hd])
          have : d = 0 := digitChar_inj_lt d this 0 (by norm_num) (by rw [hmap]; rfl)
          simp [this]
        | cons d2 ds2 => simp at hmap
    have := Nat.getLast_digit_ne_zero 10 hm
    simp [hd] at this
  · rw [if_neg hm, if_neg hn] at h'
    have hmap := congrArg List.reverse h'
    simp only [List.reverse_reverse] at hmap
    have hdig : Nat.digits 10 m = Nat.digits 10 n :=
      map_digitChar_inj _ _ (fun x hx => Nat.digits_lt_base (by norm_num) hx)
        (fun x hx => Nat.digits_lt_base (by norm_num) hx) hmap
    have := congrArg (Nat.ofDigits 10) hdig
    rwa [Nat.ofDigits_digits, Nat.ofDigits_digits] at this

theorem actionId_inj : Function.Injective (fun i : Nat => "action-" ++ toString (i + 1)) := by
  intro i j h
  simp only at h
  have hdata := congrArg String.data h
  simp only [String.data_append] at hdata
  have hrepr : (toString (i + 1) : String).data = (toString (j + 1) : String).data :=
    List.append_cancel_left hdata
  have : (toString (i + 1) : String) = toString (j + 1) := by
    cases hti : (toString (i + 1) : String) with
    | mk d1 =>
      cases htj : (toString (j + 1) : String) with
      | mk d2 =>
        rw [hti, htj] at hrepr
        simp only at hrepr
        rw [hrepr]
  have : Nat.repr (i + 1) = Nat.repr (j + 1) := this
  have := natRepr_injective this
  omega

/-! ### Inversion and success lemmas for the normalizer -/

theorem bind_ok_inv {α β : Type} {x : Except String α} {f : α → Except String β} {b : β}
    (h : bind x f = .ok b) : ∃ a, x = .ok a ∧ f a = .ok b := by
  cases x with
  | error e => exact absurd h (by simp [Bind.bind, Except.bind])
  | ok a => exact ⟨a, rfl, by simpa [Bind.bind, Except.bind] using h⟩

theorem getFieldE_ok {v : JSVal} (hv : notNullish v = true) (k : String) :
    getFieldE v k = .ok (getField v k) := by
  cases v <;> simp_all [notNullish, getFieldE]

theorem getFieldE_ok_notNullish {v : JSVal} {k : String} {w : JSVal}
    (h : getFieldE v k = .ok w) : notNullish v = true ∧ w = getField v k := by
  cases v <;> simp_all [notNullish, getFieldE]

theorem mkActionItem_id (i : Nat) (item : JSVal) (b : ActionItem)
    (h : mkActionItem i item = .ok b) : b.id = "action-" ++ toString (i + 1) := by
  simp only [mkActionItem] at h
  obtain ⟨t, ht, h⟩ := bind_ok_inv h
  obtain ⟨x2, hx2, h⟩ := bind_ok_inv h
  obtain ⟨x3, hx3, h⟩ := bind_ok_inv h
  obtain ⟨x4, hx4, h⟩ := bind_ok_inv h
  obtain ⟨x5, hx5, h⟩ := bind_ok_inv h
  simp only [pure, Except.pure, Except.ok.injEq] at h
  rw [← h]

theorem mkActionItem_ok (i : Nat) (item : JSVal) (hi : notNullish item = true) :
    ∃ b, mkActionItem i item = .ok b := by
  cases item <;> simp_all [notNullish, mkActionItem, taskField, condFieldDefault,
    getFieldE, bind, Except.bind, pure, Except.pure, jsTypeof]

theorem mapIdxME_length {f : Nat → JSVal → Except String ActionItem}
    {l : List JSVal} : ∀ {i : Nat} {bs : List ActionItem},
    mapIdxME f i l = .ok bs → bs.length = l.length := by
  induction l with
  | nil => intro i bs h; simp only [mapIdxME, Except.ok.injEq] at h; simp [← h]
  | cons a l ih =>
    intro i bs h
    simp only [mapIdxME] at h
    obtain ⟨b, hb, h⟩ := bind_ok_inv h
    obtain ⟨bs', hbs', h⟩ := bind_ok_inv h
    simp only [pure, Except.pure, Except.ok.injEq] at h
    simp [← h, ih hbs']

theorem mapIdxME_ids {l : List JSVal} : ∀ {i : Nat} {bs : List ActionItem},
    mapIdxME mkActionItem i l = .ok bs →
      bs.map ActionItem.id = (List.range l.length).map (fun k => "action-" ++ toString (i + k + 1)) := by
  induction l with
  | nil => intro i bs h; simp only [mapIdxME, Except.ok.injEq] at h; simp [← h]
  | cons a l ih =>
    intro i bs h
    simp only [mapIdxME] at h
    obtain ⟨b, hb, h⟩ := bind_ok_inv h
    obtain ⟨bs', hbs', h⟩ := bind_ok_inv h
    simp only [pure, Except.pure, Except.ok.injEq] at h
    subst h
    have hid := mkActionItem_id i a b hb
    have htail := ih hbs'
    simp only [List.map_cons, hid, htail, List.length_cons, List.range_succ_eq_map,
      List.map_map, Nat.add_zero, List.cons.injEq]
    refine ⟨by trivial, ?_⟩
    apply List.map_congr_left
    intro k _
    simp only [Function.comp_apply]
    congr 2
    omega

theorem mapIdxME_ok {l : List JSVal} (hl : ∀ x ∈ l, notNullish x = true) :
    ∀ i : Nat, ∃ bs, mapIdxME mkActionItem i l = .ok bs := by
  induction l with
  | nil => intro i; exact ⟨[], rfl⟩
  | cons a l ih =>
    intro i
    obtain ⟨b, hb⟩ := mkActionItem_ok i a (hl a (by simp))
    obtain ⟨bs, hbs⟩ := ih (fun x hx => hl x (by simp [hx])) (i + 1)
    exact ⟨b :: bs, by simp [mapIdxME, hb, hbs, bind, Except.bind, pure, Except.pure]⟩

theorem mkSpeaker_ok (s : JSVal) (hs : goodSpeaker s = true) :
    ∃ b, mkSpeaker s = .ok b := by
  have hnn : notNullish s = true := by
    simp only [goodSpeaker, Bool.and_eq_true] at hs; exact hs.1
  have hcond := (by simp only [goodSpeaker, Bool.and_eq_true] at hs; exact hs.2 :
    (truthy (getField s "initials") ||
      (match getField s "name" with
       | .null => true | .undefined => true | .str _ => true | _ => false)) = true)
  simp only [mkSpeaker]
  rw [getFieldE_ok hnn, getFieldE_ok hnn]
  by_cases hiv : truthy (getField s "initials") = true
  · simp [bind, Except.bind, hiv, getFieldE_ok hnn, pure, Except.pure]
  · rw [Bool.or_eq_true] at hcond
    rcases hcond with h | h
    · exact absurd h hiv
    · cases hname : getField s "name" <;> simp_all [bind, Except.bind, pure, Except.pure,
        initialsFromName, getFieldE_ok hnn, hiv]

theorem mapME_ok {l : List JSVal} (hl : ∀ x ∈ l, goodSpeaker x = true) :
    ∃ bs, mapME mkSpeaker l = .ok bs := by
  induction l with
  | nil => exact ⟨[], rfl⟩
  | cons a l ih =>
    obtain ⟨b, hb⟩ := mkSpeaker_ok a (hl a (by simp))
    obtain ⟨bs, hbs⟩ := ih (fun x hx => hl x (by simp [hx]))
    exact ⟨b :: bs, by simp [mapME, hb, hbs, bind, Except.bind, pure, Except.pure]⟩

theorem mappableField_arr {v : JSVal} {good : JSVal → Bool}
    (h : mappableField v good = true) :
    ∃ xs, jsOr v (.arr []) = .arr xs ∧ ∀ x ∈ xs, good x = true := by
  simp only [mappableField] at h
  cases hv : jsOr v (.arr []) <;> simp_all [List.all_eq_true]

theorem normalizeActionItems_ok {a : JSVal} (hnn : notNullish a = true)
    (hm : mappableField (getField a "actionItems") goodActionItem = true) :
    ∃ its, normalizeActionItems a = .ok its ∧
      (getField a "actionItems" = .undefined → its = []) := by
  obtain ⟨xs, hxs, hgood⟩ := mappableField_arr hm
  obtain ⟨its, hits⟩ := mapIdxME_ok (fun x hx => hgood x hx) 0
  refine ⟨its, ?_, ?_⟩
  · simp [normalizeActionItems, getFieldE_ok hnn, bind, Except.bind, hxs, jsArrayElems, hits]
  · intro hu
    rw [hu] at hxs
    have : xs = [] := by simpa [jsOr, truthy] using hxs.symm
    subst this
    simp only [mapIdxME, Except.ok.injEq] at hits
    exact hits.symm

theorem normalizeSentiment_ok {a : JSVal} (hnn : notNullish a = true)
    (hs : notNull (getField a "sentimentAnalysis") = true) :
    ∃ r, normalizeSentiment a = .ok r := by
  have hov : ∃ o, overallFromLabel a = Except.ok o := by
    simp [overallFromLabel, getFieldE_ok hnn, bind, Except.bind, pure, Except.pure]
  obtain ⟨o, ho⟩ := hov
  simp only [normalizeSentiment, bind, Except.bind, getFieldE_ok hnn]
  generalize hsa : getField a "sentimentAnalysis" = sA at hs ⊢
  cases sA with
  | null => simp [notNull] at hs
  | obj fs =>
    by_cases ht : truthy (getField (JSVal.obj fs) "overall") = true <;>
      simp [jsTypeof, getFieldE, ht, ho, pure, Except.pure]
  | arr xs =>
    by_cases ht : truthy (getField (JSVal.arr xs) "overall") = true <;>
      simp [jsTypeof, getFieldE, ht, ho, pure, Except.pure]
  | undefined => simp [jsTypeof, ho, truthy, pure, Except.pure]
  | bool b => simp [jsTypeof, ho, truthy, pure, Except.pure]
  | num n => simp [jsTypeof, ho, truthy, pure, Except.pure]
  | str t => simp [jsTypeof, ho, truthy, pure, Except.pure]

theorem normalizeSpeakers_ok {a : JSVal} (hnn : notNullish a = true)
    (hm : mappableField (getField a "speakers") goodSpeaker = true) :
    ∃ r, normalizeSpeakers a = .ok r ∧
      (getField a "speakers" = .undefined → r.speakers = []) := by
  obtain ⟨xs, hxs, hgood⟩ := mappableField_arr hm
  obtain ⟨sps, hsps⟩ := mapME_ok (fun x hx => hgood x hx)
  refine ⟨{ speakers := sps,
            insights := jsOr (jsOr (getField a "speakerInsights") (getField a "speakerAnalysis"))
              (.str "Analysis completed with available provider.") }, ?_, ?_⟩
  · simp [normalizeSpeakers, bind, Except.bind, getFieldE_ok hnn, hxs, jsArrayElems, hsps,
      pure, Except.pure]
  · intro hu
    rw [hu] at hxs
    have hxs0 : xs = [] := by simpa [jsOr, truthy] using hxs.symm
    subst hxs0
    simp only [mapME, Except.ok.injEq] at hsps
    simp [← hsps]

theorem normalizeAnalysis_ok_inv {a : JSVal} {r : MeetingAnalysis}
    (h : normalizeAnalysis a = .ok r) :
    normalizeActionItems a = .ok r.actionItems ∧
    normalizeSentiment a = .ok r.sentimentAnalysis ∧
    normalizeSpeakers a = .ok r.speakerAnalysis ∧
    notNullish a = true ∧
    r.participantCount = jsOr (getField a "participantCount")
      (.num (max 1 (Int.ofNat r.speakerAnalysis.speakers.length))) := by
  simp only [normalizeAnalysis] at h
  obtain ⟨its, h1, h⟩ := bind_ok_inv h
  obtain ⟨sen, h2, h⟩ := bind_ok_inv h
  obtain ⟨spk, h3, h⟩ := bind_ok_inv h
  obtain ⟨sv, h4, h⟩ := bind_ok_inv h
  obtain ⟨kp, h5, h⟩ := bind_ok_inv h
  obtain ⟨dv, h6, h⟩ := bind_ok_inv h
  obtain ⟨nv, h7, h⟩ := bind_ok_inv h
  obtain ⟨du, h8, h⟩ := bind_ok_inv h
  obtain ⟨pc, h9, h⟩ := bind_ok_inv h
  obtain ⟨ov, h10, h⟩ := bind_ok_inv h
  simp only [pure, Except.pure, Except.ok.injEq] at h
  subst h
  have hnn := (getFieldE_ok_notNullish h4).1
  have hpc := (getFieldE_ok_notNullish h9).2
  exact ⟨h1, h2, h3, hnn, by simp [hpc]⟩

/-! ### The split pieces are nonempty away from the string's ends -/

theorem splitRunsBy_tail_head (p : Char → Bool) :
    ∀ l : List Char, (∀ c, l.getLast? = some c → p c = false) →
      (∀ t ∈ (splitRunsBy p l).tail, t ≠ []) ∧
      ((l ≠ [] ∧ ∀ c, l.head? = some c → p c = false) →
        ∀ t ∈ splitRunsBy p l, t ≠ []) := by
  intro l
  induction l with
  | nil =>
    intro _
    constructor
    · simp [splitRunsBy]
    · rintro ⟨h, -⟩; exact absurd rfl h
  | cons c cs ih =>
    intro hlast
    have hlast' : ∀ d, cs.getLast? = some d → p d = false := by
      intro d hd
      cases cs with
      | nil => simp at hd
      | cons c2 cs2 => exact hlast d (by rw [List.getLast?_cons_cons]; exact hd)
    constructor
    · by_cases hc : p c = true
      · cases cs with
        | nil =>
          exact absurd (hlast c (by simp)) (by simp [hc])
        | cons c2 cs2 =>
          simp only [splitRunsBy, if_pos hc]
          by_cases h2 : p c2 = true
          · rw [if_pos h2]
            exact (ih hlast').1
          · rw [if_neg h2]
            intro t ht
            refine (ih hlast').2 ⟨by simp, ?_⟩ t (by simpa using ht)
            intro d hd
            simp only [List.head?_cons, Option.some.injEq] at hd
            rw [← hd]
            exact Bool.eq_false_iff.mpr h2
      · simp only [splitRunsBy, if_neg hc]
        cases hs : splitRunsBy p cs with
        | nil => simp
        | cons t ts =>
          intro u hu
          have htail := (ih hlast').1
          rw [hs] at htail
          exact htail u (by simpa using hu)
    · rintro ⟨-, hhead⟩
      have hpc : p c = false := hhead c (by simp)
      simp only [splitRunsBy, if_neg (by simp [hpc] : ¬ p c = true)]
      cases hs : splitRunsBy p cs with
      | nil => simp
      | cons t ts =>
        intro u hu
        simp only [List.mem_cons] at hu
        rcases hu with rfl | hu
        · simp
        · have htail := (ih hlast').1
          rw [hs] at htail
          exact htail u (by simpa using hu)

/-! ## The claims -/

/-- C1: `analyzeContent` tries the providers in their fixed priority order;
whenever an available provider's `analyze` throws (for any reason, including
quota errors), the manager continues with the next provider; it returns the
result of the first available provider whose `analyze` succeeds; and it
raises the terminal error — the only error it can raise — exactly when every
provider throws or is unavailable. -/
theorem claim_C1 (ps : List Provider) (c : String) :
    (analyzeContent ps c = .error "All AI providers failed or are unavailable" ↔
      ∀ p ∈ ps, p.isAvailable = true → ∃ e, p.analyze c = .error e) ∧
    (∀ ps₁ p ps₂, ps = ps₁ ++ p :: ps₂ →
      (∀ q ∈ ps₁, q.isAvailable = true → ∃ e, q.analyze c = .error e) →
      p.isAvailable = true → ∀ r, p.analyze c = .ok r → analyzeContent ps c = .ok r) ∧
    (∀ msg, analyzeContent ps c = .error msg →
      msg = "All AI providers failed or are unavailable") :=
  ⟨analyzeContent_error_iff ps c,
   fun ps₁ p ps₂ hps hfail hav r hr =>
     hps ▸ analyzeContent_first_ok ps₁ p ps₂ c hfail hav r hr,
   fun msg h => analyzeContent_error_unique ps c msg h⟩

/-- A mock provider that is available and throws a quota error. -/
def quotaProvider : Provider :=
  ⟨"Groq", true, fun _ => .error ⟨some 429, none, "Groq API error: 429 quota exceeded"⟩⟩

/-- A mock provider that is available and succeeds. -/
def okProvider : Provider := ⟨"OpenAI", true, fun _ => .ok (.str "analysis")⟩

/-- Witness for C1: with a quota-throwing provider ahead of a succeeding one,
the manager returns the second provider's result. -/
theorem claim_C1_witness :
    analyzeContent [quotaProvider, okProvider] "transcript" = .ok (.str "analysis") :=
  (claim_C1 [quotaProvider, okProvider] "transcript").2.1 [quotaProvider] okProvider [] rfl
    (fun q hq _ => by
      simp only [List.mem_singleton] at hq
      subst hq
      exact ⟨_, rfl⟩)
    rfl (.str "analysis") rfl

/-- C2: within one `analyzeContent` call, once an available provider's
`analyze` succeeds, no later provider in the list is invoked: the invocation
trace is the same as if the later providers were absent, and a later
provider's name (when not shared with an earlier provider) never appears in
the trace. -/
theorem claim_C2 (ps₁ : List Provider) (p : Provider) (ps₂ : List Provider) (c : String)
    (hav : p.isAvailable = true) (hok : ∃ r, p.analyze c = .ok r) :
    analyzeContentTrace (ps₁ ++ p :: ps₂) c = analyzeContentTrace (ps₁ ++ [p]) c ∧
    ∀ q ∈ ps₂, q.name ∉ (ps₁ ++ [p]).map Provider.name →
      q.name ∉ (analyzeContentTrace (ps₁ ++ p :: ps₂) c).1 := by
  obtain ⟨r, hr⟩ := hok
  have heq : analyzeContentTrace (ps₁ ++ p :: ps₂) c = analyzeContentTrace (ps₁ ++ [p]) c := by
    induction ps₁ with
    | nil => simp [analyzeContentTrace, hav, hr]
    | cons q ps₁ ih =>
      simp only [List.cons_append, analyzeContentTrace]
      by_cases hq : q.isAvailable
      · rw [if_pos hq, if_pos hq]
        cases hqa : q.analyze c with
        | ok r2 => rfl
        | error e => simp [ih]
      · rw [if_neg hq, if_neg hq]; exact ih
  refine ⟨heq, fun q hq hnotin hmem => ?_⟩
  rw [heq] at hmem
  exact hnotin ((analyzeContentTrace_sublist (ps₁ ++ [p]) c).subset hmem)

/-- A mock lower-priority provider. -/
def lowProvider : Provider := ⟨"Local", true, fun _ => .ok (.str "local")⟩

/-- Witness for C2: with a succeeding provider ahead of it, the
lower-priority provider is never invoked (its call count is zero). -/
theorem claim_C2_witness :
    "Local" ∉ (analyzeContentTrace [okProvider, lowProvider] "transcript").1 :=
  (claim_C2 [] okProvider [lowProvider] "transcript" rfl ⟨_, rfl⟩).2 lowProvider
    (by simp) (by simp [okProvider, lowProvider])

/-- A raw provider result carrying an out-of-range
`sentimentAnalysis.overall`. -/
def c3Input : JSVal := .obj [("sentimentAnalysis", .obj [("overall", .num 150)])]

/-- C3 (code bug): the normalizer of part_001 does not clamp
`sentimentAnalysis.overall` — the provider value 150 passes through
unchanged, outside the documented interval [0,100]. -/
theorem claim_C3_codebug :
    (normalizeAnalysis c3Input).map (fun r => r.sentimentAnalysis.overall) = .ok (.num 150) ∧
    ¬ ((0 : Int) ≤ 150 ∧ (150 : Int) ≤ 100) :=
  ⟨rfl, by omega⟩

/-- C4 counterexample: the stage-3 fallback object's `keyPoints` list is not
empty, contrary to the claim that the fallback carries empty lists. -/
theorem claim_C4_counterexample :
    getField groqFallback "keyPoints" =
      .arr [.str "Analysis data available but parsing failed"] ∧
    JSVal.arr [JSVal.str "Analysis data available but parsing failed"] ≠ JSVal.arr [] :=
  ⟨rfl, by simp⟩

/-- C4 amended: for every response string that does not parse directly, the
ladder returns (without throwing) the cleaned-retry parse if it succeeds and
otherwise the stage-2 extraction object, which is always an object; the
stage-3 fallback is neutral with empty `decisions`/`nextSteps`/`actionItems`,
`overallSentiment` "neutral" and `sentimentAnalysis.overall` 50 — but a
one-element `keyPoints` list. -/
theorem claim_C4_amended (jsonParse : String → Option JSVal)
    (mS mK mD mA : String → Option String) (s : String) (h : jsonParse s = none) :
    (groqRecover jsonParse mS mK mD mA s =
      match jsonParse (cleanGroqContent s) with
      | some v => v
      | none => manualExtract (mS s) (mK s) (mD s) (mA s)) ∧
    (∃ fields, manualExtract (mS s) (mK s) (mD s) (mA s) = JSVal.obj fields) ∧
    getField groqFallback "decisions" = .arr [] ∧
    getField groqFallback "nextSteps" = .arr [] ∧
    getField groqFallback "actionItems" = .arr [] ∧
    getField groqFallback "overallSentiment" = .str "neutral" ∧
    getField (getField groqFallback "sentimentAnalysis") "overall" = .num 50 := by
  refine ⟨?_, ⟨_, rfl⟩, rfl, rfl, rfl, rfl, rfl⟩
  simp only [groqRecover, h]
  cases hcc : jsonParse (cleanGroqContent s) <;> simp [hcc, manualExtractE]

/-- Witness for C4: with both parses failing and no regex match, the ladder
returns the stage-2 object built from defaults. -/
theorem claim_C4_witness :
    groqRecover (fun _ => none) (fun _ => none) (fun _ => none) (fun _ => none)
      (fun _ => none) "not json" = manualExtract none none none none :=
  (claim_C4_amended (fun _ => none) (fun _ => none) (fun _ => none) (fun _ => none)
    (fun _ => none) "not json" rfl).1

/-- A raw provider result whose `actionItems` is a truthy non-array. -/
def c5Input : JSVal := .obj [("actionItems", .num 5)]

/-- C5 counterexample: a wrong-typed (truthy non-array) `actionItems` makes
normalization throw a `TypeError` instead of substituting a default. -/
theorem claim_C5_counterexample :
    normalizeAnalysis c5Input = .error "TypeError: map is not a function" := rfl

/-- C5 amended: normalization completes without error for every raw result
that is not nullish, whose `actionItems`/`speakers` are falsy or arrays of
processable elements, and whose `sentimentAnalysis` is not `null`; absent
fields get the documented defaults — in particular a result missing
`actionItems` entirely normalizes to an empty sequence. -/
theorem claim_C5_amended (a : JSVal) (h : wellFormedResult a = true) :
    ∃ r, normalizeAnalysis a = .ok r ∧
      (getField a "actionItems" = .undefined → r.actionItems = []) := by
  have h' := h
  simp only [wellFormedResult, Bool.and_eq_true] at h'
  obtain ⟨⟨⟨hnn, hai⟩, hsen⟩, hspk⟩ := h'
  obtain ⟨its, hits, hitsE⟩ := normalizeActionItems_ok hnn hai
  obtain ⟨sen, hsen2⟩ := normalizeSentiment_ok hnn hsen
  obtain ⟨spk, hspk2, -⟩ := normalizeSpeakers_ok hnn hspk
  refine ⟨{ summary := jsOr (getField a "summary") (.str "Meeting analysis completed."),
            keyPoints := jsArrayOrEmpty (getField a "keyPoints"),
            decisions := jsArrayOrEmpty (getField a "decisions"),
            nextSteps := jsArrayOrEmpty (getField a "nextSteps"),
            actionItems := its,
            sentimentAnalysis := sen,
            speakerAnalysis := spk,
            duration := jsOr (getField a "duration") (.num 45),
            participantCount := jsOr (getField a "participantCount")
              (.num (max 1 (Int.ofNat spk.speakers.length))),
            overallSentiment := jsOr (getField a "overallSentiment") (.str "neutral") },
    ?_, fun hu => hitsE hu⟩
  simp [normalizeAnalysis, bind, Except.bind, hits, hsen2, hspk2, getFieldE_ok hnn,
    pure, Except.pure]

/-- Witness for C5: the empty raw result normalizes successfully with an
empty `actionItems`. -/
theorem claim_C5_witness :
    ∃ r, normalizeAnalysis (.obj []) = .ok r ∧
      (getField (.obj []) "actionItems" = .undefined → r.actionItems = []) :=
  claim_C5_amended (.obj []) rfl

/-- C6: whenever normalization succeeds, the action-item ids are exactly
`action-1`, `action-2`, …, `action-n` in sequence order (n the number of
normalized items), hence pairwise distinct. -/
theorem claim_C6 (a : JSVal) (r : MeetingAnalysis) (h : normalizeAnalysis a = .ok r) :
    r.actionItems.map ActionItem.id =
      (List.range r.actionItems.length).map (fun i => "action-" ++ toString (i + 1)) ∧
    (r.actionItems.map ActionItem.id).Nodup := by
  obtain ⟨h1, -, -, -, -⟩ := normalizeAnalysis_ok_inv h
  simp only [normalizeActionItems] at h1
  obtain ⟨f, hf, h1⟩ := bind_ok_inv h1
  obtain ⟨xs, hxs, h1⟩ := bind_ok_inv h1
  have hlen := mapIdxME_length h1
  have hids := mapIdxME_ids h1
  have hmain : r.actionItems.map ActionItem.id =
      (List.range r.actionItems.length).map (fun i => "action-" ++ toString (i + 1)) := by
    rw [hids, hlen]
    apply List.map_congr_left
    intro k _
    simp
  refine ⟨hmain, ?_⟩
  rw [hmain]
  exact (List.nodup_range _).map actionId_inj

/-- A raw result with two string action items. -/
def c6Input : JSVal := .obj [("actionItems", .arr [.str "a", .str "b"])]

/-- The normalization of `c6Input`. -/
def c6Result : MeetingAnalysis :=
  { summary := .str "Meeting analysis completed.",
    keyPoints := [], decisions := [], nextSteps := [],
    actionItems :=
      [{ id := "action-1", task := .str "a", assignee := .str "Unassigned",
         priority := .str "medium", deadline := .null, context := .str "",
         status := "pending" },
       { id := "action-2", task := .str "b", assignee := .str "Unassigned",
         priority := .str "medium", deadline := .null, context := .str "",
         status := "pending" }],
    sentimentAnalysis := { overall := .num 50, timeline := .arr [], topicBreakdown := .arr [] },
    speakerAnalysis := { speakers := [],
                         insights := .str "Analysis completed with available provider." },
    duration := .num 45, participantCount := .num 1, overallSentiment := .str "neutral" }

/-- Witness for C6 at a two-item raw result. -/
theorem claim_C6_witness :
    c6Result.actionItems.map ActionItem.id =
      (List.range c6Result.actionItems.length).map (fun i => "action-" ++ toString (i + 1)) ∧
    (c6Result.actionItems.map ActionItem.id).Nodup :=
  claim_C6 c6Input c6Result rfl

/-- A raw provider result supplying a negative `participantCount`. -/
def c7Input : JSVal := .obj [("participantCount", .num (-3))]

/-- C7 counterexample: a truthy provider-supplied `participantCount` passes
through unvalidated — here the normalized value is −3, which is not ≥ 1. -/
theorem claim_C7_counterexample :
    (normalizeAnalysis c7Input).map (fun r => r.participantCount) = .ok (.num (-3)) ∧
    (-3 : Int) < 1 :=
  ⟨rfl, by norm_num⟩

/-- C7 amended: when the provider's `participantCount` is absent or falsy,
the normalized value is `max(1, number of normalized speakers)`, which is
≥ 1; a truthy supplied value passes through unvalidated. -/
theorem claim_C7_amended (a : JSVal) (r : MeetingAnalysis)
    (h : normalizeAnalysis a = .ok r)
    (hf : truthy (getField a "participantCount") = false) :
    r.participantCount = .num (max 1 (Int.ofNat r.speakerAnalysis.speakers.length)) ∧
    1 ≤ max 1 (Int.ofNat r.speakerAnalysis.speakers.length) := by
  obtain ⟨-, -, -, -, hpc⟩ := normalizeAnalysis_ok_inv h
  refine ⟨?_, le_max_left _ _⟩
  rw [hpc]
  simp [jsOr, hf]

/-- The normalization of the empty raw result. -/
def emptyResult : MeetingAnalysis :=
  { summary := .str "Meeting analysis completed.",
    keyPoints := [], decisions := [], nextSteps := [], actionItems := [],
    sentimentAnalysis := { overall := .num 50, timeline := .arr [], topicBreakdown := .arr [] },
    speakerAnalysis := { speakers := [],
                         insights := .str "Analysis completed with available provider." },
    duration := .num 45, participantCount := .num 1, overallSentiment := .str "neutral" }

/-- Witness for C7 at the empty raw result. -/
theorem claim_C7_witness :
    emptyResult.participantCount =
      .num (max 1 (Int.ofNat emptyResult.speakerAnalysis.speakers.length)) ∧
    1 ≤ max 1 (Int.ofNat emptyResult.speakerAnalysis.speakers.length) :=
  claim_C7_amended (.obj []) emptyResult rfl rfl

/-- C8 (code bug): on a transcript whose two lines both match the action
pattern, the local analyzer keeps only the first — the global regex's
`lastIndex` persists across the `filter`'s `.test` calls, so the second
line's test starts mid-string and fails, even though the line matches the
pattern when tested fresh (second conjunct). -/
theorem claim_C8_codebug :
    getField (localAnalyze "action: a\naction: b") "actionItems" = .arr [.str "action: a"] ∧
    (regexTestG actionKeywords ("action: b".toList) 0).1 = true :=
  ⟨rfl, rfl⟩

/-- C9 counterexample: the empty transcript has zero whitespace-split tokens,
so the claim predicts duration ceil(0/150) = 0, but the code reports 1
(JavaScript `"".split(/\s+/)` is `[""]`, length 1). -/
theorem claim_C9_counterexample :
    getField (localAnalyze "") "duration" = .num 1 ∧
    (specWordCount "" + 149) / 150 = 0 :=
  ⟨rfl, rfl⟩

/-- C9 amended: the reported duration is `ceil(w/150)` where `w` is the
length of the `split(/\s+/)` array; for a nonempty transcript that neither
starts nor ends with whitespace this equals the token count, so the duration
is `ceil(tokens/150)`. -/
theorem claim_C9_amended (s : String)
    (h1 : s.toList ≠ [])
    (h2 : ∀ c, s.toList.head? = some c → c.isWhitespace = false)
    (h3 : ∀ c, s.toList.getLast? = some c → c.isWhitespace = false) :
    getField (localAnalyze s) "duration" =
      .num (Int.ofNat ((specWordCount s + 149) / 150)) := by
  have hall := (splitRunsBy_tail_head Char.isWhitespace s.toList h3).2 ⟨h1, h2⟩
  have hspec : specWordCount s = jsWordCount s := by
    unfold specWordCount jsWordCount
    rw [List.filter_eq_self.mpr]
    intro t ht
    have := hall t ht
    cases t <;> simp_all
  rw [show getField (localAnalyze s) "duration" =
    .num (Int.ofNat ((jsWordCount s + 149) / 150)) from rfl, hspec]

/-- Witness for C9 at a two-word transcript. -/
theorem claim_C9_witness :
    getField (localAnalyze "hello world") "duration" =
      .num (Int.ofNat ((specWordCount "hello world" + 149) / 150)) :=
  claim_C9_amended "hello world" (by simp)
    (by
      intro c hc
      have hc' : some 'h' = some c := hc
      cases hc'
      rfl)
    (by
      intro c hc
      have hc' : some 'd' = some c := hc
      cases hc'
      rfl)

/-- C10: the stage-2 manual-extraction object always carries
`overallSentiment` "positive", `sentimentAnalysis` {overall: 75, positive: 5,
negative: 1}, `duration` 30, `participantCount` 4, and its `nextSteps` is a
copy of the extracted `decisions` list — for every response and every
extraction outcome. -/
theorem claim_C10 (a b c d : Option String) :
    getField (manualExtract a b c d) "overallSentiment" = .str "positive" ∧
    getField (manualExtract a b c d) "sentimentAnalysis" =
      .obj [("overall", .num 75), ("positive", .num 5), ("negative", .num 1)] ∧
    getField (manualExtract a b c d) "duration" = .num 30 ∧
    getField (manualExtract a b c d) "participantCount" = .num 4 ∧
    getField (manualExtract a b c d) "nextSteps" = getField (manualExtract a b c d) "decisions" :=
  ⟨rfl, rfl, rfl, rfl, rfl⟩

end MeetingAI
